import Mathlib

/-!
Shallow embedding of the `@myorm/graphql` schema-generation engine
(`src/lib/src/index.js`).  JavaScript objects whose keys are iterated are
embedded as association lists `List (String × α)` in insertion order; the
spread operator `{...a, ...b}` is plain list concatenation together with a
last-occurrence-wins lookup `jsGet` and a first-occurrence key enumeration
`jsKeys`, which together agree with the observable behaviour of a JS object
literal built by spreads.  GraphQL argument values are `GqlValue`; the
`MyORM` chain conditions produced by `.where(...)` calls are `Condition`
terms, where a user supplied predicate handler is a Lean function from the
argument value to the condition it builds on the model.
-/

/-- Scalar types of the `graphql` library used by the source
(`GraphQLString`, `GraphQLInt`, `GraphQLFloat`, `GraphQLBoolean`). -/
inductive GqlScalar where
  | gqlString
  | gqlInt
  | gqlFloat
  | gqlBoolean
deriving DecidableEq

/-- Result type of `getGraphQLType`: either a bare (nullable) scalar or a
`GraphQLNonNull` wrapped scalar. -/
inductive GqlType where
  | scalar (g : GqlScalar)
  | nonNull (g : GqlScalar)
deriving DecidableEq

/-- Errors thrown by the source.  `unknownDatatype name type` stands for the
`Error` thrown by `getGraphQLType`'s default switch branch
(the spec's taxonomy calls it `UnknownDatatype`). -/
inductive GqlError where
  | unknownDatatype (name : String) (type : String)
deriving DecidableEq

/-- Argument values supplied by a GraphQL caller. -/
inductive GqlValue where
  | s (v : String)
  | i (v : Int)
  | b (v : Bool)
deriving DecidableEq

/-- Filter conditions accumulated on a `MyORM` context by `.where(...)`.
`eq column value` is the default equality condition `m[column].eq(value)`;
`pred tag value` is used by concrete test handlers to stand for the
condition a user defined predicate builds from the model and the value. -/
inductive Condition where
  | eq (column : String) (value : GqlValue)
  | pred (tag : String) (value : GqlValue)
deriving DecidableEq

/-- A user defined predicate handler `(model, argValue) => void` from the
source: given the caller's argument value it produces the condition added to
the chain (the `model` parameter is implicit in the `Condition` term). -/
def Handler : Type := GqlValue → Condition

/-- Column metadata of `MyORM`'s `DescribedSchema` (the fields the source
reads: `datatype`, `isNullable`, `isIdentity`, `isVirtual`). -/
structure DescribedSchema where
  datatype : String
  isNullable : Bool
  isIdentity : Bool
  isVirtual : Bool
deriving DecidableEq

/-- Entry of `customArgs` (`UserDefinedArguments` in the source).
`#addArgument` always stores a type and a handler; `#changeArgument` may
leave any of them `undefined`, hence the `Option`s. -/
structure UserDefinedArguments where
  description : Option String := none
  type : Option GqlType := none
  handler : Option Handler := none

/-- Customization state for one operation kind of one context:
`{customArgs: {...}, ignoredArgs: [...]}`.  `ignoredArgs` holds what the
source pushes: column names, or `undefined` (`none`) which `#changeArgument`
pushes when no rename happened. -/
structure CustomizationSet where
  customArgs : List (String × UserDefinedArguments) := []
  ignoredArgs : List (Option String) := []

/-- Customization set right after `addContext`: both parts empty. -/
def emptyCustomization : CustomizationSet := ⟨[], []⟩

/-- Last-occurrence-wins association lookup: the value a JS object built by
spreading these entries would hold at key `k`. -/
def jsGet {α : Type} : List (String × α) → String → Option α
  | [], _ => none
  | (k2, v) :: rest, k =>
    match jsGet rest k with
    | some v2 => some v2
    | none => if k2 = k then some v else none

/-- Key enumeration of a JS object built by spreading these entries:
first-occurrence order, duplicates collapsed (`Object.keys`). -/
def jsKeys {α : Type} (o : List (String × α)) : List String :=
  o.foldl (fun ks kv => if kv.1 ∈ ks then ks else ks ++ [kv.1]) []

/-- Assignment `o[k] = v` on a JS object: overwrite in place when the key
exists, append otherwise. -/
def objInsert {α : Type} (o : List (String × α)) (k : String) (v : α) : List (String × α) :=
  if (o.find? (fun kv => kv.1 = k)).isSome then
    o.map (fun kv => if kv.1 = k then (k, v) else kv)
  else o ++ [(k, v)]

/-- Scalar chosen by the `switch(type)` of `getGraphQLType` in the source:
string→String, int→Int, float→Float, boolean→Boolean, date→String, and no
scalar (the default branch throws) otherwise. -/
def baseScalar? : String → Option GqlScalar
  | "string" => some GqlScalar.gqlString
  | "int" => some GqlScalar.gqlInt
  | "float" => some GqlScalar.gqlFloat
  | "boolean" => some GqlScalar.gqlBoolean
  | "date" => some GqlScalar.gqlString
  | _ => none

/-- `getGraphQLType(name, type, nullable)` from the source: map the `MyORM`
datatype through the fixed switch (throwing `UnknownDatatype` on the default
branch), then return the scalar bare when `nullable` and wrapped in
`GraphQLNonNull` otherwise. -/
def getGraphQLType (name : String) (type : String) (nullable : Bool) : Except GqlError GqlType :=
  match baseScalar? type with
  | none => Except.error (GqlError.unknownDatatype name type)
  | some g => if nullable then Except.ok (GqlType.scalar g) else Except.ok (GqlType.nonNull g)

deriving instance DecidableEq for Except

/-- Argument (or field) descriptor as synthesized into a `GraphQLFieldConfig`
argument map.  `type?` is `none` when the source stores a plain `undefined`
(possible via `v.type` of a custom argument registered without a type);
otherwise it carries the outcome of the `getGraphQLType` call. -/
structure ArgDef where
  type? : Option (Except GqlError GqlType) := none
  description : Option String := none
deriving DecidableEq

/-- Field types of the query object type (`#getQueryObjectTypeConfigForContext`,
the `for(const key in $schema)` loop): each column's field type is
`getGraphQLType(key, datatype, isNullable || isIdentity)`. -/
def queryObjectFieldTypes (schema : List (String × DescribedSchema)) :
    List (String × Except GqlError GqlType) :=
  schema.map (fun kv => (kv.1, getGraphQLType kv.1 kv.2.datatype (kv.2.isNullable || kv.2.isIdentity)))

/-- Type given to a custom query argument:
`customArgs[k].type ?? getGraphQLType(k, $schema[k]?.datatype, true)`.
When the stored type is `undefined` the fallback calls `getGraphQLType` with
the schema datatype of `k`, which throws when `k` is not a column. -/
def customQueryArgType (schema : List (String × DescribedSchema)) (k : String)
    (ua : UserDefinedArguments) : Except GqlError GqlType :=
  match ua.type with
  | some t => Except.ok t
  | none =>
    match jsGet schema k with
    | some col => getGraphQLType k col.datatype true
    | none => Except.error (GqlError.unknownDatatype k "undefined")

/-- Argument set of the synthesized Query operation
(`#getQueryObjectTypeConfigForContext`): the static `skip`/`take`
arguments, then one nullable equality-filter argument per non-ignored
column, then the non-ignored custom arguments. -/
def queryArgs (schema : List (String × DescribedSchema)) (qca : CustomizationSet) :
    List (String × ArgDef) :=
  [("skip", { type? := some (Except.ok (GqlType.scalar GqlScalar.gqlInt)),
              description := some "Number of records to skip. (this will not work unless \"take\" is also provided)" }),
   ("take", { type? := some (Except.ok (GqlType.scalar GqlScalar.gqlInt)),
              description := some "Number of records to retrieve." })]
  ++ ((schema.filter (fun kv => !(qca.ignoredArgs.contains (some kv.1)))).map
        (fun kv => (kv.1, ({ type? := some (getGraphQLType kv.1 kv.2.datatype true) } : ArgDef))))
  ++ ((qca.customArgs.filter (fun kv => !(qca.ignoredArgs.contains (some kv.1)))).map
        (fun kv => (kv.1, ({ type? := some (customQueryArgType schema kv.1 kv.2),
                             description := kv.2.description } : ArgDef))))

/-- Argument set of the synthesized Insert operation
(`#getInsertObjectTypeConfigForContext`): the custom arguments (types taken
verbatim from `v.type`), then one argument per non-ignored, non-identity,
non-virtual column typed `getGraphQLType(k, datatype, isNullable || isIdentity)`. -/
def insertArgs (schema : List (String × DescribedSchema)) (ica : CustomizationSet) :
    List (String × ArgDef) :=
  (ica.customArgs.map
      (fun kv => (kv.1, ({ type? := (kv.2.type).map Except.ok,
                           description := kv.2.description } : ArgDef))))
  ++ ((schema.filter (fun kv =>
          !(ica.ignoredArgs.contains (some kv.1)) && !kv.2.isIdentity && !kv.2.isVirtual)).map
        (fun kv => (kv.1, ({ type? := some (getGraphQLType kv.1 kv.2.datatype (kv.2.isNullable || kv.2.isIdentity)),
                             description := some ("Use this argument for the initial value for the column, \"" ++ kv.1 ++ "\"."
                               ++ (if (kv.2.isNullable || kv.2.isIdentity) then "" else " (required)")) } : ArgDef))))

/-- Argument set of the synthesized Update operation
(`#getUpdateObjectTypeConfigForContext`): the custom arguments, then a
`filterBy_`-named nullable equality argument for every non-ignored column,
then a settable argument for every non-ignored, non-identity, non-virtual
column. -/
def updateArgs (schema : List (String × DescribedSchema)) (uca : CustomizationSet) :
    List (String × ArgDef) :=
  (uca.customArgs.map
      (fun kv => (kv.1, ({ type? := (kv.2.type).map Except.ok,
                           description := kv.2.description } : ArgDef))))
  ++ ((schema.filter (fun kv => !(uca.ignoredArgs.contains (some kv.1)))).map
        (fun kv => ("filterBy_" ++ kv.1,
          ({ type? := some (getGraphQLType kv.1 kv.2.datatype true),
             description := some ("Use this argument to check equality for \"" ++ kv.1 ++ "\" to determine what record(s) to update.") } : ArgDef))))
  ++ ((schema.filter (fun kv =>
          !(uca.ignoredArgs.contains (some kv.1)) && !kv.2.isIdentity && !kv.2.isVirtual)).map
        (fun kv => (kv.1,
          ({ type? := some (getGraphQLType kv.1 kv.2.datatype true),
             description := some ("Use this argument to set the column \"" ++ kv.1 ++ "\" for all records qualified for update.") } : ArgDef))))

/-- Argument set of the synthesized Delete operation
(`#getDeleteObjectTypeConfigForContext`): the custom arguments, then one
nullable equality argument per non-ignored column. -/
def deleteArgs (schema : List (String × DescribedSchema)) (dca : CustomizationSet) :
    List (String × ArgDef) :=
  (dca.customArgs.map
      (fun kv => (kv.1, ({ type? := (kv.2.type).map Except.ok,
                           description := kv.2.description } : ArgDef))))
  ++ ((schema.filter (fun kv => !(dca.ignoredArgs.contains (some kv.1)))).map
        (fun kv => (kv.1,
          ({ type? := some (getGraphQLType kv.1 kv.2.datatype true) } : ArgDef))))

/-- Field-selection tree of a GraphQL request, as the resolver reads it from
`resolvers.fieldNodes[0].selectionSet.selections`: a field is a leaf when it
has no `selectionSet` and a relationship node otherwise. -/
inductive Selection where
  | leaf (name : String)
  | node (name : String) (children : List Selection)

/-- Translation of the resolver's `selectFields(selections, m)`: the model
`m` is represented by the path of field names that reaches it, and
`m[s.name.value]` for a leaf is the column path `mpath ++ [name]`.  A node
recurses into its selection set with the extended model, a leaf contributes
its column, and `flatMap` keeps enumeration order. -/
def selectFields : List Selection → List String → List (List String)
  | [], _ => []
  | Selection.leaf n :: rest, mpath => (mpath ++ [n]) :: selectFields rest mpath
  | Selection.node n cs :: rest, mpath =>
      selectFields cs (mpath ++ [n]) ++ selectFields rest mpath

/-- Relationship accesses performed by the resolver's
`selectIncludes(selections, m)`: for every field with a selection set it
dereferences `m[s.name.value]` and calls `.thenInclude` with the nested
selections, so every node path of the tree is accessed (the `MyORM` include
chain registers an inclusion per accessed relationship). -/
def selectIncludes : List Selection → List String → List (List String)
  | [], _ => []
  | Selection.leaf _ :: rest, mpath => selectIncludes rest mpath
  | Selection.node n cs :: rest, mpath =>
      (mpath ++ [n]) :: (selectIncludes cs (mpath ++ [n]) ++ selectIncludes rest mpath)

/-- Leaf fields of a requested selection tree, written from the spec's
description of the projection: a leaf field contributes its own column and a
field with a nested selection set contributes the leaves of its subtree,
qualified by the relationship name. -/
def specLeafPaths : List Selection → List (List String)
  | [] => []
  | Selection.leaf n :: rest => [n] :: specLeafPaths rest
  | Selection.node n cs :: rest =>
      (specLeafPaths cs).map (fun p => n :: p) ++ specLeafPaths rest

/-- Relationship paths of a requested selection tree, written from the
spec's description of inclusion: every field with a nested selection set
contributes a relationship inclusion, resolved recursively. -/
def specNodePaths : List Selection → List (List String)
  | [] => []
  | Selection.leaf _ :: rest => specNodePaths rest
  | Selection.node n cs :: rest =>
      [n] :: ((specNodePaths cs).map (fun p => n :: p) ++ specNodePaths rest)

/-- State of the chained, isolated `MyORM` query context built by the Query
resolver (`let resolveCtx = ctx` and the subsequent
`.where`/`.take`/`.skip`/`.include`/`.select` calls).  The data-context
contract is modelled minimally: `wheres` accumulates the conditions of the
successive `.where` calls, `takeApplied`/`skipApplied` hold the pagination
bounds, `includedPaths` the registered relationship inclusions, and
`selectedColumns` the column paths handed to `.select`. -/
structure QueryContext where
  wheres : List Condition := []
  takeApplied : Option Int := none
  skipApplied : Option Int := none
  includedPaths : List (List String) := []
  selectedColumns : Option (List (List String)) := none
deriving DecidableEq

/-- Fresh query context of a registered table (no conditions applied). -/
def emptyQueryContext : QueryContext := {}

/-- `resolveCtx.where(m => ...)`: appends one more condition to the chain. -/
def QueryContext.whereCond (c : QueryContext) (cond : Condition) : QueryContext :=
  { c with wheres := c.wheres ++ [cond] }

/-- `resolveCtx.take(n)`. -/
def QueryContext.take (c : QueryContext) (n : Int) : QueryContext :=
  { c with takeApplied := some n }

/-- `resolveCtx.skip(n)`. -/
def QueryContext.skip (c : QueryContext) (n : Int) : QueryContext :=
  { c with skipApplied := some n }

/-- `resolveCtx.include(m => selectIncludes(...))`: registers the accessed
relationship paths. -/
def QueryContext.includeRels (c : QueryContext) (ps : List (List String)) : QueryContext :=
  { c with includedPaths := c.includedPaths ++ ps }

/-- `resolveCtx.select(m => selectFields(...))`: records the projected
column paths of the issued read. -/
def QueryContext.select (c : QueryContext) (cols : List (List String)) : QueryContext :=
  { c with selectedColumns := some cols }

/-- Modelled data-context semantics of a chain of `.where` calls: a row
admitted by the final context must satisfy every accumulated condition
(each successive `.where` intersects the result set). -/
def QueryContext.admits (c : QueryContext) (sat : Condition → Bool) : Bool :=
  c.wheres.all sat

/-- Invocation of a stored custom handler `customArgs[k].handler(m, v)`.
The source can only reach a `none` handler through a `#changeArgument` call
that never supplied `definedAs`, where the JS call would throw a
`TypeError`; that inert path is marked by a tag condition and is exercised
by no claim. -/
def invokeHandler (h : Option Handler) (v : GqlValue) : Condition :=
  match h with
  | some f => f v
  | none => Condition.pred "TypeError" v

/-- Arguments of a Query invocation after the resolver's destructuring
`const { skip, take, ...dynamicArgs } = args`. -/
structure QueryArgs where
  skip : Option Int := none
  take : Option Int := none
  dynamicArgs : List (String × GqlValue) := []

/-- JS truthiness of a possibly-absent numeric argument, as tested by
`if(take)` / `if(skip)`: present and nonzero. -/
def truthyInt : Option Int → Bool
  | some n => n != 0
  | none => false

/-- Query resolver (`#getQueryObjectTypeConfigForContext`'s `resolve`):
append one condition per dynamic argument (the registered custom handler
when the name is a custom argument, the default equality otherwise), apply
`take` when truthy and then `skip` when also truthy, register the includes
of the selection tree and issue the select with its leaf columns. -/
def queryResolve (ctx : QueryContext) (qca : CustomizationSet) (args : QueryArgs)
    (sels : List Selection) : QueryContext :=
  let afterWheres := args.dynamicArgs.foldl
    (fun c kv =>
      match jsGet qca.customArgs kv.1 with
      | some ua => c.whereCond (invokeHandler ua.handler kv.2)
      | none => c.whereCond (Condition.eq kv.1 kv.2)) ctx
  let afterPaging :=
    match args.take with
    | some t =>
      if t != 0 then
        let c2 := afterWheres.take t
        match args.skip with
        | some s => if s != 0 then c2.skip s else c2
        | none => c2
      else afterWheres
    | none => afterWheres
  ((afterPaging.includeRels (selectIncludes sels [])).select (selectFields sels []))

/-- Removal of the first occurrence of the pattern, over the character
list of a string (JS `String.prototype.replace` with a string pattern and
an empty replacement). -/
def replaceOnceChars (pat : List Char) : List Char → List Char
  | [] => []
  | c :: rest =>
    if pat.isPrefixOf (c :: rest) then (c :: rest).drop pat.length
    else c :: replaceOnceChars pat rest

/-- `argKey.replace('filterBy_', '')` from the mutation resolvers. -/
def jsRemoveFilterBy (k : String) : String :=
  String.mk (replaceOnceChars "filterBy_".toList k.toList)

/-- JS `k.startsWith(pat)`, computed over the character lists. -/
def jsStartsWith (k pat : String) : Bool :=
  pat.toList.isPrefixOf k.toList

/-- Errors the spec's safety policy expects of unscoped mutations.  The
embedded resolvers below never produce it: the source has no such guard. -/
inductive MutationError where
  | unscopedMutationRejected
deriving DecidableEq

/-- The write the Update resolver hands to the data context:
`resolveCtx.update(() => updateArgs)` after the accumulated `.where` calls. -/
structure UpdateCall where
  wheres : List Condition
  record : List (String × GqlValue)
deriving Inhabited

/-- Outcome of the Update resolver: either a write issued against the data
context, or a rejection (never produced by the source). -/
inductive UpdateOutcome where
  | write (call : UpdateCall)
  | failure (e : MutationError)

/-- Outcome of the Delete resolver: either a `delete()` issued after the
accumulated filter conditions, or a rejection (never produced). -/
inductive DeleteOutcome where
  | write (wheres : List Condition)
  | failure (e : MutationError)

/-- Filter partition of the Update resolver: the supplied arguments whose
name starts with `filterBy_` or is a registered custom update argument. -/
def updateFilterArgs (uca : CustomizationSet) (args : List (String × GqlValue)) :
    List (String × GqlValue) :=
  args.filter (fun kv => jsStartsWith kv.1 "filterBy_" || (jsGet uca.customArgs kv.1).isSome)

/-- Set-value partition of the Update resolver: every supplied argument
whose name does not start with `filterBy_`. -/
def updateSetArgs (args : List (String × GqlValue)) : List (String × GqlValue) :=
  args.filter (fun kv => !(jsStartsWith kv.1 "filterBy_"))

/-- Conditions accumulated by the Update resolver's loop over the filter
arguments: the custom handler when registered, else equality on the column
name with the `filterBy_` marker removed. -/
def updateWheres (uca : CustomizationSet) (args : List (String × GqlValue)) : List Condition :=
  (updateFilterArgs uca args).foldl
    (fun ws kv =>
      match jsGet uca.customArgs kv.1 with
      | some ua => ws ++ [invokeHandler ua.handler kv.2]
      | none => ws ++ [Condition.eq (jsRemoveFilterBy kv.1) kv.2]) []

/-- Update resolver (`#getUpdateObjectTypeConfigForContext`'s `resolve`):
split the arguments into filters and set values, apply every filter as a
`.where` condition and unconditionally issue
`resolveCtx.update(() => updateArgs)` — there is no emptiness check on the
filter set before the write. -/
def updateResolve (uca : CustomizationSet) (args : List (String × GqlValue)) : UpdateOutcome :=
  UpdateOutcome.write ⟨updateWheres uca args, updateSetArgs args⟩

/-- Delete resolver (`#getDeleteObjectTypeConfigForContext`'s `resolve`):
every supplied argument becomes a `.where` condition (custom handler or
equality), then `resolveCtx.delete()` is issued unconditionally. -/
def deleteResolve (dca : CustomizationSet) (args : List (String × GqlValue)) : DeleteOutcome :=
  DeleteOutcome.write
    (args.foldl
      (fun ws kv =>
        match jsGet dca.customArgs kv.1 with
        | some ua => ws ++ [invokeHandler ua.handler kv.2]
        | none => ws ++ [Condition.eq (jsRemoveFilterBy kv.1) kv.2]) [])

/-- `#addArgument(argDetails, details, graphqlArgType, callback)`:
stores the description, handler and type under the argument name. -/
def addArgument (argDetails : CustomizationSet) (name : String) (description : Option String)
    (graphqlArgType : GqlType) (callback : Handler) : CustomizationSet :=
  { argDetails with
    customArgs := objInsert argDetails.customArgs name
      { description := description, type := some graphqlArgType, handler := some callback } }

/-- `#removeArgument(argDetails, callback)`: the callback dereferences one
or more properties of the proxy and each access pushes the property name
onto `ignoredArgs`, unconditionally — no check of any kind is made on the
referenced column. -/
def removeArgument (argDetails : CustomizationSet) (referenced : List String) : CustomizationSet :=
  { argDetails with ignoredArgs := argDetails.ignoredArgs ++ referenced.map some }

/-- Chained calls available on the `#changeArgument` builder object `o()`. -/
inductive ChangeOp where
  | namedAs (newName : String)
  | definedAs (definition : Handler)
  | describedAs (description : String)
  | typedAs (type : GqlType)

/-- Mutable closure state of `#changeArgument` (`let state = {}` plus the
`state.name = p` performed by the proxy access). -/
structure ChangeState where
  name : String
  oldName : Option String := none
  definition : Option Handler := none
  description : Option String := none
  type : Option GqlType := none

/-- One chained builder call of `#changeArgument` on property `p`:
`namedAs` records `p` as the old name and the new name, the other calls
record their payload. -/
def applyChangeOp (p : String) (st : ChangeState) : ChangeOp → ChangeState
  | ChangeOp.namedAs n => { st with oldName := some p, name := n }
  | ChangeOp.definedAs d => { st with definition := some d }
  | ChangeOp.describedAs s => { st with description := some s }
  | ChangeOp.typedAs t => { st with type := some t }

/-- `#changeArgument(argDetails, callback)` where the callback dereferences
property `p` and chains `ops`: fold the builder calls over the state
initialized by the proxy access, register the accumulated definition,
description and type under the final name, and push the old name (which is
`undefined` when no rename happened) onto `ignoredArgs` whenever it differs
from the final name. -/
def changeArgument (argDetails : CustomizationSet) (p : String) (ops : List ChangeOp) :
    CustomizationSet :=
  let st := ops.foldl (applyChangeOp p) { name := p }
  { customArgs := objInsert argDetails.customArgs st.name
      { description := st.description, type := st.type, handler := st.definition },
    ignoredArgs :=
      if some st.name ≠ st.oldName then argDetails.ignoredArgs ++ [st.oldName]
      else argDetails.ignoredArgs }

/-- Condition added by the Query resolver for one dynamic argument: the
registered custom handler when the name is a custom argument, the default
equality `m[argKey].eq(args[argKey])` otherwise. -/
def queryCondition (qca : CustomizationSet) (k : String) (v : GqlValue) : Condition :=
  match jsGet qca.customArgs k with
  | some ua => invokeHandler ua.handler v
  | none => Condition.eq k v

/-- Condition added by the Update/Delete resolvers for one filter argument:
the registered custom handler when the name is a custom argument, else
equality on `argKey.replace('filterBy_', '')`. -/
def mutationCondition (ca : CustomizationSet) (k : String) (v : GqlValue) : Condition :=
  match jsGet ca.customArgs k with
  | some ua => invokeHandler ua.handler v
  | none => Condition.eq (jsRemoveFilterBy k) v

/-- Schema of the spec's scenario table `User{Id identity, FirstName, LastName}`
(fields: datatype, isNullable, isIdentity, isVirtual). -/
def userSchema : List (String × DescribedSchema) :=
  [("Id", ⟨"int", false, true, false⟩),
   ("FirstName", ⟨"string", false, false, false⟩),
   ("LastName", ⟨"string", false, false, false⟩)]

/-- Concrete predicate handler standing for the repository test's
`(m, argVal) => m.Bytes.between(...)` redefinition of the `Bytes` filter. -/
def bytesBetweenHandler : Handler := fun v => Condition.pred "BytesBetween" v

/-- Concrete predicate handler standing for the repository test's
`MakeAndModel` custom update argument. -/
def makeModelHandler : Handler := fun v => Condition.pred "MakeAndModel" v

/-- Custom argument record stored by registering `makeModelHandler` under
the name `MakeAndModel`. -/
def makeModelUa : UserDefinedArguments :=
  { description := some "Make and model, separated by a space in between the two words.",
    type := some (GqlType.scalar GqlScalar.gqlString),
    handler := some makeModelHandler }

/-- Update customization set of the repository test: one custom argument
`MakeAndModel` added through `#addArgument`. -/
def makeModelCustomization : CustomizationSet :=
  addArgument emptyCustomization "MakeAndModel"
    (some "Make and model, separated by a space in between the two words.")
    (GqlType.scalar GqlScalar.gqlString) makeModelHandler

theorem jsGet_append {α : Type} (a b : List (String × α)) (k : String) :
    jsGet (a ++ b) k = match jsGet b k with
      | some v => some v
      | none => jsGet a k := by
  induction a with
  | nil => cases h : jsGet b k <;> simp [jsGet, h]
  | cons kv rest ih =>
    obtain ⟨k2, v⟩ := kv
    simp only [List.cons_append, jsGet, ih]
    cases h : jsGet b k <;> cases h2 : jsGet rest k <;> simp [ih, h, h2]

theorem jsGet_eq_none_of_not_mem {α : Type} (l : List (String × α)) (k : String)
    (h : k ∉ l.map Prod.fst) : jsGet l k = none := by
  induction l with
  | nil => rfl
  | cons kv rest ih =>
    obtain ⟨k2, v⟩ := kv
    simp only [List.map_cons, List.mem_cons, not_or] at h
    simp [jsGet, ih h.2, Ne.symm h.1]

theorem jsGet_map_entry {α β : Type} (l : List (String × α)) (f : String → α → β) (k : String) :
    jsGet (l.map (fun kv => (kv.1, f kv.1 kv.2))) k = (jsGet l k).map (f k) := by
  induction l with
  | nil => rfl
  | cons kv rest ih =>
    obtain ⟨k2, v⟩ := kv
    simp only [List.map_cons, jsGet, ih]
    cases h : jsGet rest k with
    | some v2 => simp
    | none =>
      by_cases hk : k2 = k
      · subst hk; simp
      · simp [hk]

theorem jsGet_filter {α : Type} (l : List (String × α)) (p : String × α → Bool) (k : String)
    (hnd : (l.map Prod.fst).Nodup) :
    jsGet (l.filter p) k = match jsGet l k with
      | some v => if p (k, v) then some v else none
      | none => none := by
  induction l with
  | nil => rfl
  | cons kv rest ih =>
    obtain ⟨k2, v⟩ := kv
    simp only [List.map_cons, List.nodup_cons] at hnd
    obtain ⟨hk1, hnd2⟩ := hnd
    by_cases hk : k2 = k
    · subst hk
      have hrest : jsGet rest k2 = none := jsGet_eq_none_of_not_mem _ _ hk1
      have hrestf : jsGet (rest.filter p) k2 = none := by
        apply jsGet_eq_none_of_not_mem
        intro hmem
        apply hk1
        obtain ⟨kv2, hkv2, hfst⟩ := List.mem_map.mp hmem
        exact hfst ▸ List.mem_map_of_mem Prod.fst (List.mem_filter.mp hkv2).1
      by_cases hp : p (k2, v)
      · simp [List.filter_cons, hp, jsGet, hrest, hrestf]
      · simp [List.filter_cons, hp, jsGet, hrest, hrestf]
    · rw [List.filter_cons]
      by_cases hp : p (k2, v)
      · simp only [hp, if_true, jsGet, ih hnd2]
        cases h2 : jsGet rest k with
        | none => simp [hk, h2]
        | some w =>
          simp only [h2]
          by_cases hp2 : p (k, w) <;> simp [hk, hp2]
      · simp only [hp, Bool.false_eq_true, if_false, ih hnd2]
        cases h2 : jsGet rest k with
        | none => simp [jsGet, hk, h2]
        | some w => simp [jsGet, hk, h2]

theorem baseScalar?_eq_none (t : String)
    (h : t ∉ (["string", "int", "float", "boolean", "date"] : List String)) :
    baseScalar? t = none := by
  simp only [List.mem_cons, List.not_mem_nil, or_false, not_or] at h
  obtain ⟨h1, h2, h3, h4, h5⟩ := h
  unfold baseScalar?
  split <;> simp_all

/-- C6: `mapType` (the source's `getGraphQLType`) is the fixed map
string→String, int→Int, float→Float, boolean→Boolean, date→String, fails
with `UnknownDatatype` for any datatype outside the five recognized kinds,
wraps the scalar non-null when `nullable=false`, leaves it bare when
`nullable=true`, and on the query object type a column with
`isIdentity=true` gets the bare (nullable) scalar. -/
theorem c6_type_mapper :
    (baseScalar? "string" = some GqlScalar.gqlString
      ∧ baseScalar? "int" = some GqlScalar.gqlInt
      ∧ baseScalar? "float" = some GqlScalar.gqlFloat
      ∧ baseScalar? "boolean" = some GqlScalar.gqlBoolean
      ∧ baseScalar? "date" = some GqlScalar.gqlString)
    ∧ (∀ n t b, t ∉ (["string", "int", "float", "boolean", "date"] : List String) →
        getGraphQLType n t b = Except.error (GqlError.unknownDatatype n t))
    ∧ (∀ n t g, baseScalar? t = some g →
        getGraphQLType n t false = Except.ok (GqlType.nonNull g))
    ∧ (∀ n t g, baseScalar? t = some g →
        getGraphQLType n t true = Except.ok (GqlType.scalar g))
    ∧ (∀ (schema : List (String × DescribedSchema)) k col g,
        jsGet schema k = some col → col.isIdentity = true →
        baseScalar? col.datatype = some g →
        jsGet (queryObjectFieldTypes schema) k = some (Except.ok (GqlType.scalar g))) := by
  refine ⟨⟨rfl, rfl, rfl, rfl, rfl⟩, ?_, ?_, ?_, ?_⟩
  · intro n t b h
    simp [getGraphQLType, baseScalar?_eq_none t h]
  · intro n t g h
    simp [getGraphQLType, h]
  · intro n t g h
    simp [getGraphQLType, h]
  · intro schema k col g hcol hident hg
    unfold queryObjectFieldTypes
    rw [jsGet_map_entry schema (fun k col => getGraphQLType k col.datatype (col.isNullable || col.isIdentity)) k]
    simp [hcol, hident, getGraphQLType, hg]

/-- Witness for C6 at concrete inputs: `blob` is rejected with
`UnknownDatatype`, a non-nullable `string` column maps to a non-null
String, a nullable recognized kind maps to the bare scalar, and the
identity column `Id` of the `User` table gets a bare Int on the query
object type. -/
theorem c6_type_mapper_witness :
    getGraphQLType "Col" "blob" true = Except.error (GqlError.unknownDatatype "Col" "blob")
    ∧ getGraphQLType "Name" "string" false = Except.ok (GqlType.nonNull GqlScalar.gqlString)
    ∧ getGraphQLType "Name" "date" true = Except.ok (GqlType.scalar GqlScalar.gqlString)
    ∧ jsGet (queryObjectFieldTypes userSchema) "Id" = some (Except.ok (GqlType.scalar GqlScalar.gqlInt)) :=
  ⟨c6_type_mapper.2.1 "Col" "blob" true (by decide),
   c6_type_mapper.2.2.1 "Name" "string" GqlScalar.gqlString rfl,
   c6_type_mapper.2.2.2.1 "Name" "date" GqlScalar.gqlString rfl,
   c6_type_mapper.2.2.2.2 userSchema "Id" ⟨"int", false, true, false⟩ GqlScalar.gqlInt rfl rfl rfl⟩

/-- C3: for every column with `isNullable=false` and `isIdentity=false`
(and present in the synthesized sets, i.e. not virtual and not customized
away), the Query argument for that column has a nullable scalar type (the
synthesis always passes `nullable=true` for filter arguments) while the
Insert argument for the same column is non-null. -/
theorem c3_query_nullable_insert_nonnull (schema : List (String × DescribedSchema))
    (k : String) (col : DescribedSchema) (g : GqlScalar)
    (hnd : (schema.map Prod.fst).Nodup)
    (hcol : jsGet schema k = some col)
    (hnn : col.isNullable = false) (hni : col.isIdentity = false) (hnv : col.isVirtual = false)
    (hg : baseScalar? col.datatype = some g) :
    (jsGet (queryArgs schema emptyCustomization) k).map ArgDef.type?
        = some (some (Except.ok (GqlType.scalar g)))
    ∧ (jsGet (insertArgs schema emptyCustomization) k).map ArgDef.type?
        = some (some (Except.ok (GqlType.nonNull g))) := by
  constructor
  · unfold queryArgs
    have hfil : schema.filter
        (fun kv => !((emptyCustomization.ignoredArgs).contains (some kv.1))) = schema :=
      List.filter_eq_self.mpr (fun a _ => rfl)
    rw [hfil]
    rw [jsGet_append, jsGet_append]
    rw [jsGet_map_entry schema
      (fun k col => ({ type? := some (getGraphQLType k col.datatype true) } : ArgDef)) k]
    simp [emptyCustomization, jsGet, hcol, getGraphQLType, hg]
  · unfold insertArgs
    rw [jsGet_append]
    rw [jsGet_map_entry (schema.filter _)
      (fun k col => ({ type? := some (getGraphQLType k col.datatype (col.isNullable || col.isIdentity)),
                       description := some ("Use this argument for the initial value for the column, \"" ++ k ++ "\"."
                         ++ (if (col.isNullable || col.isIdentity) then "" else " (required)")) } : ArgDef)) k]
    rw [jsGet_filter schema _ k hnd]
    simp [emptyCustomization, hcol, hni, hnv, getGraphQLType, hg, hnn]

/-- Witness for C3 on the `User` table: the required column `FirstName`
gets a nullable String as Query argument and a non-null String as Insert
argument. -/
theorem c3_query_nullable_insert_nonnull_witness :
    (jsGet (queryArgs userSchema emptyCustomization) "FirstName").map ArgDef.type?
        = some (some (Except.ok (GqlType.scalar GqlScalar.gqlString)))
    ∧ (jsGet (insertArgs userSchema emptyCustomization) "FirstName").map ArgDef.type?
        = some (some (Except.ok (GqlType.nonNull GqlScalar.gqlString))) :=
  c3_query_nullable_insert_nonnull userSchema "FirstName" ⟨"string", false, false, false⟩
    GqlScalar.gqlString (by decide) rfl rfl rfl rfl rfl

theorem dynamicFold_eq (qca : CustomizationSet) (l : List (String × GqlValue))
    (ctx : QueryContext) :
    l.foldl (fun c kv =>
      match jsGet qca.customArgs kv.1 with
      | some ua => c.whereCond (invokeHandler ua.handler kv.2)
      | none => c.whereCond (Condition.eq kv.1 kv.2)) ctx
    = { ctx with wheres := ctx.wheres ++ l.map (fun kv => queryCondition qca kv.1 kv.2) } := by
  induction l generalizing ctx with
  | nil => simp
  | cons kv rest ih =>
    simp only [List.foldl_cons, List.map_cons]
    cases h : jsGet qca.customArgs kv.1 with
    | some ua => rw [ih]; simp [QueryContext.whereCond, queryCondition, h]
    | none => rw [ih]; simp [QueryContext.whereCond, queryCondition, h]

theorem queryResolve_eq (ctx : QueryContext) (qca : CustomizationSet) (args : QueryArgs)
    (sels : List Selection) :
    queryResolve ctx qca args sels =
      { wheres := ctx.wheres ++ args.dynamicArgs.map (fun kv => queryCondition qca kv.1 kv.2),
        takeApplied := if truthyInt args.take then args.take else ctx.takeApplied,
        skipApplied := if truthyInt args.take && truthyInt args.skip then args.skip
                       else ctx.skipApplied,
        includedPaths := ctx.includedPaths ++ selectIncludes sels [],
        selectedColumns := some (selectFields sels []) } := by
  unfold queryResolve
  rw [dynamicFold_eq]
  cases ht : args.take with
  | none =>
    simp [truthyInt, QueryContext.includeRels, QueryContext.select]
  | some t =>
    by_cases h0 : t = 0
    · subst h0
      simp [truthyInt, QueryContext.includeRels, QueryContext.select]
    · cases hs : args.skip with
      | none =>
        simp [truthyInt, h0, QueryContext.take, QueryContext.includeRels, QueryContext.select]
      | some s =>
        by_cases hs0 : s = 0
        · subst hs0
          simp [truthyInt, h0, QueryContext.take, QueryContext.includeRels, QueryContext.select]
        · simp [truthyInt, h0, hs0, QueryContext.take, QueryContext.skip,
                QueryContext.includeRels, QueryContext.select]

theorem selectFields_eq : ∀ (sels : List Selection) (mpath : List String),
    selectFields sels mpath = (specLeafPaths sels).map (fun p => mpath ++ p)
  | [], _ => by simp [selectFields, specLeafPaths]
  | Selection.leaf n :: rest, mpath => by
    simp [selectFields, specLeafPaths, selectFields_eq rest mpath]
  | Selection.node n cs :: rest, mpath => by
    simp only [selectFields, specLeafPaths, selectFields_eq cs (mpath ++ [n]),
      selectFields_eq rest mpath, List.map_append, List.map_map]
    congr 1
    exact List.map_congr_left (fun p _ => by simp)

theorem selectIncludes_eq : ∀ (sels : List Selection) (mpath : List String),
    selectIncludes sels mpath = (specNodePaths sels).map (fun p => mpath ++ p)
  | [], _ => by simp [selectIncludes, specNodePaths]
  | Selection.leaf n :: rest, mpath => by
    simp [selectIncludes, specNodePaths, selectIncludes_eq rest mpath]
  | Selection.node n cs :: rest, mpath => by
    simp only [selectIncludes, specNodePaths, selectIncludes_eq cs (mpath ++ [n]),
      selectIncludes_eq rest mpath, List.map_append, List.map_map, List.map_cons]
    congr 1
    congr 1
    exact List.map_congr_left (fun p _ => by simp)

/-- C4: during Query resolution every supplied non-pagination argument adds
one filter condition — the registered custom handler invoked with the
argument value when the name is a custom/altered argument, the default
equality `column == argValue` otherwise — in argument enumeration order,
and the resulting context admits a row exactly when the original context
does and every added condition holds (conjunction, no OR). -/
theorem c4_argument_conditions (ctx : QueryContext) (qca : CustomizationSet) (args : QueryArgs)
    (sels : List Selection) :
    ((queryResolve ctx qca args sels).wheres
        = ctx.wheres ++ args.dynamicArgs.map (fun kv => queryCondition qca kv.1 kv.2))
    ∧ (∀ k v ua, jsGet qca.customArgs k = some ua →
        queryCondition qca k v = invokeHandler ua.handler v)
    ∧ (∀ k v, jsGet qca.customArgs k = none →
        queryCondition qca k v = Condition.eq k v)
    ∧ (∀ sat : Condition → Bool,
        (queryResolve ctx qca args sels).admits sat
          = (ctx.admits sat
              && (args.dynamicArgs.map (fun kv => queryCondition qca kv.1 kv.2)).all sat)) := by
  refine ⟨?_, ?_, ?_, ?_⟩
  · rw [queryResolve_eq]
  · intro k v ua h; simp [queryCondition, h]
  · intro k v h; simp [queryCondition, h]
  · intro sat
    rw [queryResolve_eq]
    simp [QueryContext.admits, List.all_append]

/-- Witness for C4 on the spec scenario `User(FirstName: "John")` extended
with a registered custom argument: the default argument adds the equality
condition, the custom argument invokes its registered handler, in
enumeration order. -/
theorem c4_argument_conditions_witness :
    ((queryResolve emptyQueryContext makeModelCustomization
        { dynamicArgs := [("FirstName", GqlValue.s "John"), ("MakeAndModel", GqlValue.s "Ford F150")] }
        []).wheres
      = [Condition.eq "FirstName" (GqlValue.s "John"),
         Condition.pred "MakeAndModel" (GqlValue.s "Ford F150")])
    ∧ queryCondition makeModelCustomization "MakeAndModel" (GqlValue.s "Ford F150")
        = invokeHandler makeModelUa.handler (GqlValue.s "Ford F150")
    ∧ queryCondition makeModelCustomization "FirstName" (GqlValue.s "John")
        = Condition.eq "FirstName" (GqlValue.s "John") := by
  have h := c4_argument_conditions emptyQueryContext makeModelCustomization
    { dynamicArgs := [("FirstName", GqlValue.s "John"), ("MakeAndModel", GqlValue.s "Ford F150")] }
    []
  refine ⟨?_, h.2.1 "MakeAndModel" (GqlValue.s "Ford F150") makeModelUa rfl,
    h.2.2.1 "FirstName" (GqlValue.s "John") rfl⟩
  rw [h.1]
  rfl

/-- C5: the columns the Query resolver passes to the data context's select
are exactly the leaf fields of the requested selection tree (nested leaves
qualified by their relationship path) — never a column that was not
requested — and every field with a nested selection set contributes a
relationship inclusion, resolved recursively. -/
theorem c5_projection_exact (ctx : QueryContext) (qca : CustomizationSet) (args : QueryArgs)
    (sels : List Selection) :
    (queryResolve ctx qca args sels).selectedColumns = some (specLeafPaths sels)
    ∧ (queryResolve ctx qca args sels).includedPaths
        = ctx.includedPaths ++ specNodePaths sels := by
  rw [queryResolve_eq]
  constructor
  · simp [selectFields_eq]
  · simp [selectIncludes_eq]

/-- C9 counterexample: `take` supplied as `0` is a supplied take argument
for which the resolver applies no limit (`if(take)` is a JS truthiness
test), contradicting the claim that a supplied `take` always applies the
limit. -/
theorem c9_counterexample :
    (queryResolve emptyQueryContext emptyCustomization { take := some 0 } []).takeApplied
      = none := by
  rw [queryResolve_eq]
  simp [truthyInt, emptyQueryContext]

/-- C9 amended: the limit is applied exactly when `take` is supplied and
truthy (nonzero); the offset is applied exactly when `take` and `skip` are
both supplied and truthy; `skip` without `take` (or with a falsy value) is
a no-op and no error is raised — the resolver stays total. -/
theorem c9_amended_pagination (ctx : QueryContext) (qca : CustomizationSet) (args : QueryArgs)
    (sels : List Selection) :
    ((queryResolve ctx qca args sels).takeApplied
        = (if truthyInt args.take then args.take else ctx.takeApplied))
    ∧ ((queryResolve ctx qca args sels).skipApplied
        = (if truthyInt args.take && truthyInt args.skip then args.skip
           else ctx.skipApplied)) := by
  rw [queryResolve_eq]
  exact ⟨rfl, rfl⟩

theorem updateWheres_eq (uca : CustomizationSet) (args : List (String × GqlValue)) :
    updateWheres uca args
      = (updateFilterArgs uca args).map (fun kv => mutationCondition uca kv.1 kv.2) := by
  unfold updateWheres
  generalize updateFilterArgs uca args = l
  suffices h : ∀ (l : List (String × GqlValue)) (init : List Condition),
      l.foldl (fun ws kv =>
        match jsGet uca.customArgs kv.1 with
        | some ua => ws ++ [invokeHandler ua.handler kv.2]
        | none => ws ++ [Condition.eq (jsRemoveFilterBy kv.1) kv.2]) init
      = init ++ l.map (fun kv => mutationCondition uca kv.1 kv.2) by
    simpa using h l []
  intro l
  induction l with
  | nil => intro init; simp
  | cons kv rest ih =>
    intro init
    simp only [List.foldl_cons, List.map_cons]
    cases h : jsGet uca.customArgs kv.1 with
    | some ua => rw [ih]; simp [mutationCondition, h]
    | none => rw [ih]; simp [mutationCondition, h]

theorem deleteResolve_eq (dca : CustomizationSet) (args : List (String × GqlValue)) :
    deleteResolve dca args
      = DeleteOutcome.write (args.map (fun kv => mutationCondition dca kv.1 kv.2)) := by
  unfold deleteResolve
  suffices h : ∀ (l : List (String × GqlValue)) (init : List Condition),
      l.foldl (fun ws kv =>
        match jsGet dca.customArgs kv.1 with
        | some ua => ws ++ [invokeHandler ua.handler kv.2]
        | none => ws ++ [Condition.eq (jsRemoveFilterBy kv.1) kv.2]) init
      = init ++ l.map (fun kv => mutationCondition dca kv.1 kv.2) by
    rw [h args []]
    simp
  intro l
  induction l with
  | nil => intro init; simp
  | cons kv rest ih =>
    intro init
    simp only [List.foldl_cons, List.map_cons]
    cases h : jsGet dca.customArgs kv.1 with
    | some ua => rw [ih]; simp [mutationCondition, h]
    | none => rw [ih]; simp [mutationCondition, h]

/-- C1 counterexample: an Update (and a Delete) invocation with zero
supplied arguments — hence an empty computed filter set — does not fail
with `UnscopedMutationRejected`: the resolver issues the write against the
data context with an empty condition list. -/
theorem c1_counterexample :
    updateResolve emptyCustomization [] = UpdateOutcome.write ⟨[], []⟩
    ∧ updateResolve emptyCustomization []
        ≠ UpdateOutcome.failure MutationError.unscopedMutationRejected
    ∧ deleteResolve emptyCustomization [] = DeleteOutcome.write []
    ∧ deleteResolve emptyCustomization []
        ≠ DeleteOutcome.failure MutationError.unscopedMutationRejected := by
  refine ⟨rfl, ?_, rfl, ?_⟩
  · intro h; exact UpdateOutcome.noConfusion h
  · intro h; exact DeleteOutcome.noConfusion h

/-- C1 amended: the Update and Delete resolvers never reject an invocation:
they always issue the write against the data context, carrying exactly the
conditions computed from the filter arguments — in particular an empty
condition list when no filter argument was supplied.  No
`UnscopedMutationRejected` guard exists in this layer; any protection
against unscoped writes is left to the data context. -/
theorem c1_amended_always_writes (uca dca : CustomizationSet)
    (args dargs : List (String × GqlValue)) :
    updateResolve uca args
        = UpdateOutcome.write
            ⟨(updateFilterArgs uca args).map (fun kv => mutationCondition uca kv.1 kv.2),
             updateSetArgs args⟩
    ∧ deleteResolve dca dargs
        = DeleteOutcome.write (dargs.map (fun kv => mutationCondition dca kv.1 kv.2)) := by
  constructor
  · unfold updateResolve
    rw [updateWheres_eq]
  · exact deleteResolve_eq dca dargs

/-- C10: a supplied argument registered as a custom update argument is
applied as a filter condition (its handler is invoked with the argument
value) and — its name not starting with `filterBy_`, the only names the
set-values partition excludes — it is also included in the record of
values handed to the data context's update. -/
theorem c10_custom_update_arg_dual_use (uca : CustomizationSet)
    (args : List (String × GqlValue)) (k : String) (v : GqlValue)
    (ua : UserDefinedArguments)
    (hcu : jsGet uca.customArgs k = some ua)
    (hnf : jsStartsWith k "filterBy_" = false)
    (hmem : (k, v) ∈ args) :
    ∃ w r, updateResolve uca args = UpdateOutcome.write ⟨w, r⟩
      ∧ invokeHandler ua.handler v ∈ w
      ∧ (k, v) ∈ r := by
  refine ⟨updateWheres uca args, updateSetArgs args, rfl, ?_, ?_⟩
  · rw [updateWheres_eq]
    apply List.mem_map.mpr
    refine ⟨(k, v), ?_, ?_⟩
    · unfold updateFilterArgs
      exact List.mem_filter.mpr ⟨hmem, by simp [hcu]⟩
    · simp [mutationCondition, hcu]
  · unfold updateSetArgs
    exact List.mem_filter.mpr ⟨hmem, by simp [hnf]⟩

/-- Witness for C10: the repository test's `MakeAndModel` custom update
argument is both applied as a filter (its handler invoked on the supplied
value) and included in the update record. -/
theorem c10_custom_update_arg_dual_use_witness :
    ∃ w r, updateResolve makeModelCustomization
        [("filterBy_Id", GqlValue.i 1), ("MakeAndModel", GqlValue.s "Ford F150")]
      = UpdateOutcome.write ⟨w, r⟩
      ∧ invokeHandler makeModelUa.handler (GqlValue.s "Ford F150") ∈ w
      ∧ ("MakeAndModel", GqlValue.s "Ford F150") ∈ r :=
  c10_custom_update_arg_dual_use makeModelCustomization
    [("filterBy_Id", GqlValue.i 1), ("MakeAndModel", GqlValue.s "Ford F150")]
    "MakeAndModel" (GqlValue.s "Ford F150") makeModelUa rfl rfl (by simp)

theorem foldl_addKey {α : Type} : ∀ (l : List (String × α)) (ks : List String),
    (∀ x ∈ l.map Prod.fst, x ∉ ks) → (l.map Prod.fst).Nodup →
    l.foldl (fun ks kv => if kv.1 ∈ ks then ks else ks ++ [kv.1]) ks = ks ++ l.map Prod.fst := by
  intro l
  induction l with
  | nil => intro ks _ _; simp
  | cons kv rest ih =>
    intro ks hno hnd
    simp only [List.map_cons, List.nodup_cons] at hnd
    have hk : kv.1 ∉ ks := hno kv.1 (by simp)
    simp only [List.foldl_cons, hk, if_false, List.map_cons]
    rw [ih (ks ++ [kv.1]) ?_ hnd.2]
    · simp
    · intro x hx hmem
      rcases List.mem_append.mp hmem with h1 | h2
      · exact hno x (List.mem_cons_of_mem _ hx) h1
      · rw [List.mem_singleton] at h2
        exact hnd.1 (h2 ▸ hx)

theorem jsKeys_of_nodup {α : Type} (l : List (String × α))
    (hnd : (l.map Prod.fst).Nodup) : jsKeys l = l.map Prod.fst := by
  unfold jsKeys
  simpa using foldl_addKey l [] (by simp) hnd

theorem filterBy_append_inj : Function.Injective (fun k : String => "filterBy_" ++ k) := by
  intro a b h
  have h2 : "filterBy_" ++ a = "filterBy_" ++ b := h
  have hd : ("filterBy_" ++ a).data = ("filterBy_" ++ b).data := by rw [h2]
  rw [String.data_append, String.data_append] at hd
  exact String.ext (List.append_cancel_left hd)

/-- C2 counterexample: the spec scenario table
`User{Id identity, FirstName, LastName}` has `N = 2` non-identity,
non-virtual columns, but the synthesized Update argument set has 5 entries
(`filterBy_Id`, `filterBy_FirstName`, `filterBy_LastName`, `FirstName`,
`LastName`), not `2N = 4`: `filterBy_` arguments are generated for every
column, identity columns included. -/
theorem c2_counterexample :
    ((userSchema.filter (fun kv => !kv.2.isIdentity && !kv.2.isVirtual)).length = 2)
    ∧ (jsKeys (updateArgs userSchema emptyCustomization)).length = 5 := by
  constructor
  · rfl
  · rfl

/-- C2 amended: before customization the Update argument set has one
`filterBy_<column>` argument for every column of the schema — identity and
virtual columns included — plus one set-value argument per non-identity,
non-virtual column, so its size is `M + N` where `M` is the total column
count; it equals `2N` only when every column is non-identity and
non-virtual. -/
theorem c2_amended_update_args (schema : List (String × DescribedSchema))
    (hnd : (schema.map Prod.fst).Nodup)
    (hdisj : ∀ k1 ∈ schema.map Prod.fst, ∀ k2 ∈ schema.map Prod.fst,
      "filterBy_" ++ k1 ≠ k2) :
    jsKeys (updateArgs schema emptyCustomization)
      = schema.map (fun kv => "filterBy_" ++ kv.1)
        ++ (schema.filter (fun kv => !kv.2.isIdentity && !kv.2.isVirtual)).map Prod.fst
    ∧ (jsKeys (updateArgs schema emptyCustomization)).length
        = schema.length
          + (schema.filter (fun kv => !kv.2.isIdentity && !kv.2.isVirtual)).length := by
  have hfil1 : schema.filter
      (fun kv => !((emptyCustomization.ignoredArgs).contains (some kv.1))) = schema :=
    List.filter_eq_self.mpr (fun a _ => rfl)
  have hfil2 : schema.filter
      (fun kv => !((emptyCustomization.ignoredArgs).contains (some kv.1))
        && !kv.2.isIdentity && !kv.2.isVirtual)
      = schema.filter (fun kv => !kv.2.isIdentity && !kv.2.isVirtual) :=
    List.filter_congr (fun a _ => rfl)
  have hkeys : (updateArgs schema emptyCustomization).map Prod.fst
      = schema.map (fun kv => "filterBy_" ++ kv.1)
        ++ (schema.filter (fun kv => !kv.2.isIdentity && !kv.2.isVirtual)).map Prod.fst := by
    unfold updateArgs
    rw [hfil1, hfil2]
    simp only [emptyCustomization, List.map_nil, List.nil_append, List.map_append, List.map_map]
    congr 1
  have hnodup : ((updateArgs schema emptyCustomization).map Prod.fst).Nodup := by
    rw [hkeys]
    rw [List.nodup_append]
    refine ⟨?_, ?_, ?_⟩
    · have : schema.map (fun kv => "filterBy_" ++ kv.1)
          = (schema.map Prod.fst).map (fun k => "filterBy_" ++ k) := by
        rw [List.map_map]
        exact List.map_congr_left (fun a _ => rfl)
      rw [this]
      exact List.Nodup.map filterBy_append_inj hnd
    · exact List.Nodup.sublist
        ((List.filter_sublist schema).map Prod.fst) hnd
    · intro x hx1 hx2
      obtain ⟨kv1, hkv1, hfst1⟩ := List.mem_map.mp hx1
      obtain ⟨kv2, hkv2, hfst2⟩ := List.mem_map.mp hx2
      have hkv2s : kv2 ∈ schema := (List.mem_filter.mp hkv2).1
      exact hdisj kv1.1 (List.mem_map_of_mem Prod.fst hkv1) kv2.1
        (List.mem_map_of_mem Prod.fst hkv2s) (hfst1.trans hfst2.symm)
  have hmain := (jsKeys_of_nodup _ hnodup).trans hkeys
  refine ⟨hmain, ?_⟩
  rw [hmain]
  simp [List.length_append]

/-- Witness for C2 amended at the `User` table: three `filterBy_` arguments
(identity column included) plus two set-value arguments. -/
theorem c2_amended_update_args_witness :
    jsKeys (updateArgs userSchema emptyCustomization)
      = ["filterBy_Id", "filterBy_FirstName", "filterBy_LastName", "FirstName", "LastName"]
    ∧ (jsKeys (updateArgs userSchema emptyCustomization)).length = 3 + 2 := by
  have h := c2_amended_update_args userSchema (by decide) (by decide)
  exact ⟨h.1.trans (by rfl), h.2.trans (by rfl)⟩

/-- C8 counterexample: `removeArgument` on the Insert customization set
naming the required column `FirstName` (non-nullable, non-identity,
non-virtual in the `User` table) is not rejected: it returns normally with
the column pushed onto the ignored set, and the previously present
(non-null) Insert argument for `FirstName` silently disappears from the
synthesized argument set. -/
theorem c8_counterexample :
    removeArgument emptyCustomization ["FirstName"]
        = { customArgs := [], ignoredArgs := [some "FirstName"] }
    ∧ (jsGet (insertArgs userSchema emptyCustomization) "FirstName").isSome = true
    ∧ jsGet (insertArgs userSchema (removeArgument emptyCustomization ["FirstName"]))
        "FirstName" = none := by
  refine ⟨rfl, rfl, rfl⟩

/-- C8 amended: `removeArgument` on the Insert customization set
unconditionally marks every referenced column ignored — a required
(non-nullable, non-identity, non-virtual) insert column included — so the
column is silently suppressed from the Insert argument set; no runtime
`CannotRemoveRequiredInsertArgument` rejection exists (the restriction to
already-optional columns lives only in the static type of the callback
model). -/
theorem c8_amended_silent_suppression (schema : List (String × DescribedSchema))
    (cs : CustomizationSet) (cols : List String) (k : String) (col : DescribedSchema)
    (hk : k ∈ cols)
    (hcol : jsGet schema k = some col)
    (hnn : col.isNullable = false) (hni : col.isIdentity = false) (hnv : col.isVirtual = false)
    (hca : jsGet cs.customArgs k = none) :
    (some k) ∈ (removeArgument cs cols).ignoredArgs
    ∧ jsGet (insertArgs schema (removeArgument cs cols)) k = none := by
  constructor
  · unfold removeArgument
    simp only [List.mem_append, List.mem_map]
    exact Or.inr ⟨k, hk, rfl⟩
  · unfold insertArgs
    rw [jsGet_append]
    have hmemignored : (removeArgument cs cols).ignoredArgs.contains (some k) = true := by
      apply List.elem_iff.mpr
      unfold removeArgument
      simp only [List.mem_append, List.mem_map]
      exact Or.inr ⟨k, hk, rfl⟩
    have hschemaseg : jsGet
        ((schema.filter (fun kv =>
            !((removeArgument cs cols).ignoredArgs.contains (some kv.1))
              && !kv.2.isIdentity && !kv.2.isVirtual)).map
          (fun kv => (kv.1, ({ type? := some (getGraphQLType kv.1 kv.2.datatype (kv.2.isNullable || kv.2.isIdentity)),
                               description := some ("Use this argument for the initial value for the column, \"" ++ kv.1 ++ "\"."
                                 ++ (if (kv.2.isNullable || kv.2.isIdentity) then "" else " (required)")) } : ArgDef)))) k
        = none := by
      apply jsGet_eq_none_of_not_mem
      intro hmem
      rw [List.map_map] at hmem
      obtain ⟨kv2, hkv2, hfst⟩ := List.mem_map.mp hmem
      have hpred := (List.mem_filter.mp hkv2).2
      have : kv2.1 = k := hfst
      rw [this, hmemignored] at hpred
      simp at hpred
    rw [hschemaseg]
    have hcu : (removeArgument cs cols).customArgs = cs.customArgs := rfl
    rw [hcu]
    rw [jsGet_map_entry cs.customArgs
      (fun k ua => ({ type? := (ua.type).map Except.ok,
                      description := ua.description } : ArgDef)) k]
    simp [hca]

/-- Witness for C8 amended at the `User` table: removing the required
column `FirstName` marks it ignored and removes its Insert argument, with
no error of any kind. -/
theorem c8_amended_silent_suppression_witness :
    (some "FirstName") ∈ (removeArgument emptyCustomization ["FirstName"]).ignoredArgs
    ∧ jsGet (insertArgs userSchema (removeArgument emptyCustomization ["FirstName"]))
        "FirstName" = none :=
  c8_amended_silent_suppression userSchema emptyCustomization ["FirstName"] "FirstName"
    ⟨"string", false, false, false⟩ (by decide) rfl rfl rfl rfl rfl

theorem objInsert_map_fst {α : Type} (o : List (String × α)) (k : String) (v : α) :
    (o.map (fun kv => if kv.1 = k then (k, v) else kv)).map Prod.fst = o.map Prod.fst := by
  rw [List.map_map]
  apply List.map_congr_left
  intro a _
  by_cases h : a.1 = k <;> simp [h]

theorem jsGet_objInsert_self {α : Type} (o : List (String × α)) (k : String) (v : α) :
    jsGet (objInsert o k v) k = some v := by
  unfold objInsert
  by_cases hf : (o.find? (fun kv => kv.1 = k)).isSome
  · simp only [hf, if_true]
    have hmem : k ∈ o.map Prod.fst := by
      obtain ⟨x, hx, hpx⟩ := List.find?_isSome.mp hf
      have hxk : x.1 = k := by simpa using hpx
      exact hxk ▸ List.mem_map_of_mem Prod.fst hx
    clear hf
    induction o with
    | nil => simp at hmem
    | cons kv rest ih =>
      obtain ⟨k1, v1⟩ := kv
      by_cases hr : k ∈ rest.map Prod.fst
      · have hrec := ih hr
        simp only [List.map_cons, jsGet, hrec]
      · have hk : k1 = k := by
          simp only [List.map_cons, List.mem_cons] at hmem
          rcases hmem with h | h
          · exact h.symm
          · exact absurd h hr
        subst hk
        have hnone : jsGet (rest.map (fun kv => if kv.1 = k1 then (k1, v) else kv)) k1 = none := by
          apply jsGet_eq_none_of_not_mem
          rw [objInsert_map_fst]
          exact hr
        have hhead : (if k1 = k1 then ((k1, v) : String × α) else (k1, v1)) = (k1, v) :=
          if_pos rfl
        simp only [List.map_cons, jsGet, hnone]
        show (if (if k1 = k1 then ((k1, v) : String × α) else (k1, v1)).1 = k1
              then some (if k1 = k1 then ((k1, v) : String × α) else (k1, v1)).2
              else none) = some v
        rw [hhead]
        simp
  · simp only [hf, Bool.false_eq_true, if_false]
    rw [jsGet_append]
    simp [jsGet]

theorem objInsert_keys_nodup {α : Type} (o : List (String × α)) (k : String) (v : α)
    (hnd : (o.map Prod.fst).Nodup) : ((objInsert o k v).map Prod.fst).Nodup := by
  unfold objInsert
  by_cases hf : (o.find? (fun kv => kv.1 = k)).isSome
  · simp only [hf, if_true]
    rw [objInsert_map_fst]
    exact hnd
  · simp only [hf, Bool.false_eq_true, if_false]
    rw [List.map_append, List.nodup_append]
    refine ⟨hnd, by simp, ?_⟩
    intro x hx hx2
    simp only [List.map_cons, List.map_nil, List.mem_singleton] at hx2
    subst hx2
    obtain ⟨y, hy, hfst⟩ := List.mem_map.mp hx
    exact absurd (List.find?_isSome.mpr ⟨y, hy, by simp [hfst]⟩) hf

theorem contains_eq_true_iff {α : Type} [BEq α] [LawfulBEq α] (l : List α) (a : α) :
    l.contains a = true ↔ a ∈ l :=
  List.elem_iff

/-- C7: a `changeArgument` call that renames an argument from `p` to a
distinct new name `n` (supplying a definition, description and type) puts
`p` into the ignored set — so `p` is absent from the synthesized Query
argument set — and registers the supplied definition, description and type
as a custom argument under `n`, which is present in the argument set with
the supplied type and whose predicate handler is the one invoked when `n`
is supplied at resolution. -/
theorem c7_change_argument_rename (cs : CustomizationSet)
    (schema : List (String × DescribedSchema)) (p n : String) (ops : List ChangeOp)
    (d : Handler) (desc : String) (ty : GqlType)
    (hst : ops.foldl (applyChangeOp p) { name := p } = ⟨n, some p, some d, some desc, some ty⟩)
    (hne : n ≠ p) (hsk : p ≠ "skip") (htk : p ≠ "take")
    (hnig : (some n) ∉ cs.ignoredArgs)
    (hnd : (cs.customArgs.map Prod.fst).Nodup) :
    ((some p) ∈ (changeArgument cs p ops).ignoredArgs)
    ∧ jsGet (changeArgument cs p ops).customArgs n = some ⟨some desc, some ty, some d⟩
    ∧ jsGet (queryArgs schema (changeArgument cs p ops)) p = none
    ∧ (jsGet (queryArgs schema (changeArgument cs p ops)) n).map ArgDef.type?
        = some (some (Except.ok ty))
    ∧ (∀ ctx v sels,
        (queryResolve ctx (changeArgument cs p ops) { dynamicArgs := [(n, v)] } sels).wheres
          = ctx.wheres ++ [d v]) := by
  have hca2 : (changeArgument cs p ops).customArgs
      = objInsert cs.customArgs n ⟨some desc, some ty, some d⟩ := by
    unfold changeArgument
    rw [hst]
  have hia2 : (changeArgument cs p ops).ignoredArgs = cs.ignoredArgs ++ [some p] := by
    unfold changeArgument
    rw [hst]
    exact if_pos (fun h => hne (Option.some.inj h))
  have hjsca : jsGet (changeArgument cs p ops).customArgs n = some ⟨some desc, some ty, some d⟩ := by
    rw [hca2]
    exact jsGet_objInsert_self _ _ _
  have hnd2 : ((changeArgument cs p ops).customArgs.map Prod.fst).Nodup := by
    rw [hca2]
    exact objInsert_keys_nodup _ _ _ hnd
  have hpmem : (changeArgument cs p ops).ignoredArgs.contains (some p) = true := by
    rw [hia2]
    exact (contains_eq_true_iff _ _).mpr (by simp)
  have hnmem : (changeArgument cs p ops).ignoredArgs.contains (some n) = false := by
    rw [hia2]
    apply Bool.eq_false_iff.mpr
    intro hb
    rcases List.mem_append.mp ((contains_eq_true_iff _ _).mp hb) with h | h
    · exact hnig h
    · rw [List.mem_singleton] at h
      exact hne (Option.some.inj h)
  refine ⟨?_, hjsca, ?_, ?_, ?_⟩
  · rw [hia2]
    simp
  · unfold queryArgs
    rw [jsGet_append, jsGet_append]
    have h1 : jsGet (((changeArgument cs p ops).customArgs.filter
        (fun kv => !((changeArgument cs p ops).ignoredArgs.contains (some kv.1)))).map
        (fun kv => (kv.1, ({ type? := some (customQueryArgType schema kv.1 kv.2),
                             description := kv.2.description } : ArgDef)))) p = none := by
      apply jsGet_eq_none_of_not_mem
      intro hmem
      rw [List.map_map] at hmem
      obtain ⟨kv2, hkv2, hfst⟩ := List.mem_map.mp hmem
      have hpr := (List.mem_filter.mp hkv2).2
      have hfst2 : kv2.1 = p := hfst
      rw [hfst2, hpmem] at hpr
      simp at hpr
    have h2 : jsGet ((schema.filter
        (fun kv => !((changeArgument cs p ops).ignoredArgs.contains (some kv.1)))).map
        (fun kv => (kv.1, ({ type? := some (getGraphQLType kv.1 kv.2.datatype true) } : ArgDef)))) p
        = none := by
      apply jsGet_eq_none_of_not_mem
      intro hmem
      rw [List.map_map] at hmem
      obtain ⟨kv2, hkv2, hfst⟩ := List.mem_map.mp hmem
      have hpr := (List.mem_filter.mp hkv2).2
      have hfst2 : kv2.1 = p := hfst
      rw [hfst2, hpmem] at hpr
      simp at hpr
    rw [h1, h2]
    simp [jsGet, Ne.symm hsk, Ne.symm htk]
  · unfold queryArgs
    rw [jsGet_append, jsGet_append]
    have h1 : jsGet (((changeArgument cs p ops).customArgs.filter
        (fun kv => !((changeArgument cs p ops).ignoredArgs.contains (some kv.1)))).map
        (fun kv => (kv.1, ({ type? := some (customQueryArgType schema kv.1 kv.2),
                             description := kv.2.description } : ArgDef)))) n
        = some ⟨some (Except.ok ty), some desc⟩ := by
      rw [jsGet_map_entry ((changeArgument cs p ops).customArgs.filter
          (fun kv => !((changeArgument cs p ops).ignoredArgs.contains (some kv.1))))
        (fun k ua => ({ type? := some (customQueryArgType schema k ua),
                        description := ua.description } : ArgDef)) n]
      rw [jsGet_filter _ _ _ hnd2]
      rw [hjsca]
      simp only [hnmem, Bool.not_false, if_true]
      simp [customQueryArgType]
    rw [h1]
    simp
  · intro ctx v sels
    rw [queryResolve_eq]
    simp [queryCondition, hjsca, invokeHandler]

/-- Witness for C7 on the repository test's rename of `Bytes` to
`BytesRange` (definition, description and type supplied through the chained
builder): `Bytes` ends up ignored and absent, `BytesRange` is registered
and present with the supplied type, and resolving `BytesRange` invokes the
supplied handler. -/
theorem c7_change_argument_rename_witness :
    ((some "Bytes") ∈ (changeArgument emptyCustomization "Bytes"
        [ChangeOp.definedAs bytesBetweenHandler, ChangeOp.describedAs "some description",
         ChangeOp.namedAs "BytesRange", ChangeOp.typedAs (GqlType.scalar GqlScalar.gqlString)]).ignoredArgs)
    ∧ jsGet (changeArgument emptyCustomization "Bytes"
        [ChangeOp.definedAs bytesBetweenHandler, ChangeOp.describedAs "some description",
         ChangeOp.namedAs "BytesRange", ChangeOp.typedAs (GqlType.scalar GqlScalar.gqlString)]).customArgs
        "BytesRange"
        = some ⟨some "some description", some (GqlType.scalar GqlScalar.gqlString),
                some bytesBetweenHandler⟩
    ∧ jsGet (queryArgs userSchema (changeArgument emptyCustomization "Bytes"
        [ChangeOp.definedAs bytesBetweenHandler, ChangeOp.describedAs "some description",
         ChangeOp.namedAs "BytesRange", ChangeOp.typedAs (GqlType.scalar GqlScalar.gqlString)]))
        "Bytes" = none
    ∧ (jsGet (queryArgs userSchema (changeArgument emptyCustomization "Bytes"
        [ChangeOp.definedAs bytesBetweenHandler, ChangeOp.describedAs "some description",
         ChangeOp.namedAs "BytesRange", ChangeOp.typedAs (GqlType.scalar GqlScalar.gqlString)]))
        "BytesRange").map ArgDef.type?
        = some (some (Except.ok (GqlType.scalar GqlScalar.gqlString)))
    ∧ (queryResolve emptyQueryContext (changeArgument emptyCustomization "Bytes"
        [ChangeOp.definedAs bytesBetweenHandler, ChangeOp.describedAs "some description",
         ChangeOp.namedAs "BytesRange", ChangeOp.typedAs (GqlType.scalar GqlScalar.gqlString)])
        { dynamicArgs := [("BytesRange", GqlValue.s "100-200")] } []).wheres
        = emptyQueryContext.wheres ++ [bytesBetweenHandler (GqlValue.s "100-200")] := by
  have h := c7_change_argument_rename emptyCustomization userSchema "Bytes" "BytesRange"
    [ChangeOp.definedAs bytesBetweenHandler, ChangeOp.describedAs "some description",
     ChangeOp.namedAs "BytesRange", ChangeOp.typedAs (GqlType.scalar GqlScalar.gqlString)]
    bytesBetweenHandler "some description" (GqlType.scalar GqlScalar.gqlString)
    rfl (by decide) (by decide) (by decide) (by simp [emptyCustomization]) (by simp [emptyCustomization])
  exact ⟨h.1, h.2.1, h.2.2.1, h.2.2.2.1,
    h.2.2.2.2 emptyQueryContext (GqlValue.s "100-200") []⟩
